import Mathlib

/-!
Verification of the pypool resource pool (src/pypool/pool.py) against its
natural-language specification.

The pool is embedded shallowly:

* A `Resource` is an opaque value carrying the two pool-attached timestamps
  (the `_pypool_created__` and `_pypool_released__` instance-dict entries);
  `resdict.get(KEY, 0)` semantics is modelled by letting an unset timestamp
  be `0`.
* Wall-clock time is `Int` (Python arithmetic like `now_time - self.max_age`
  may go negative; `Int` keeps that faithful).  Each operation takes the
  `now()` samples it draws as explicit arguments.
* The collaborator hooks are explicit: `get_resource` takes the outcome of
  `create_resource` as an `Option Resource` (`none` models an exception
  raised by the hook), and every operation returns the list of resources it
  passes to `destroy_resource`, in call order.
* Counters are `Nat` fields of the state (the spec mandates per-instance
  counters; the claims below all concern a single pool instance).
-/

/-- A pooled resource: an identity plus the two pool-private timestamps.
`created` models `resource.__dict__.get(CREATED, 0)` and `released` models
`resource.__dict__.get(RELEASED, 0)`; an unset key reads as `0`, exactly as
the `dict.get` default in the source. -/
structure Resource where
  rid : Nat
  created : Int
  released : Int
deriving Repr, DecidableEq

/-- The mutable state of a `Pool` instance: the idle list `pool`
(`self.__pool`, index 0 is the front pulled first), the three configuration
attributes, and the six lifecycle counters. -/
structure PoolState where
  pool : List Resource
  pool_size_limit : Int
  max_age : Int
  max_idle_time : Int
  count_cleared : Nat
  count_created : Nat
  count_killed_stale : Nat
  count_killed_ttl : Nat
  count_overflow_discard : Nat
  count_served_from_pool : Nat
deriving Repr, DecidableEq

/-- `Pool.__init__(pool_size_limit, max_age, max_idle_time)`: empty idle
list and all counters at zero. -/
def initPool (pool_size_limit max_age max_idle_time : Int) : PoolState :=
  { pool := []
    pool_size_limit := pool_size_limit
    max_age := max_age
    max_idle_time := max_idle_time
    count_cleared := 0
    count_created := 0
    count_killed_stale := 0
    count_killed_ttl := 0
    count_overflow_discard := 0
    count_served_from_pool := 0 }

/-- `min_fresh_time = now_time - self.max_idle_time if self.max_idle_time
else 0` (truthiness of a Python int: nonzero). -/
def minFreshTime (max_idle_time now_time : Int) : Int :=
  if max_idle_time ≠ 0 then now_time - max_idle_time else 0

/-- `min_created_time = now_time - self.max_age if self.max_age else 0`. -/
def minCreatedTime (max_age now_time : Int) : Int :=
  if max_age ≠ 0 then now_time - max_age else 0

/-- Result of the `while True` pull loop of `get_resource`: the resource
served (if any), the resources left in `self.__pool`, the `kill_list` in
pull order, and how many kills the ttl branch and the stale branch each
contributed. -/
structure ScanResult where
  served : Option Resource
  rest : List Resource
  kills : List Resource
  nTtl : Nat
  nStale : Nat
deriving Repr, DecidableEq

/-- The pull loop of `get_resource` (pool.py lines 93-108): repeatedly pop
the front; a resource with `created < min_created_time` goes to the kill
list via the ttl branch, else one with `released < min_fresh_time` goes via
the stale branch, else it is served and the loop stops. -/
def scan (minC minF : Int) : List Resource → ScanResult
  | [] => ⟨none, [], [], 0, 0⟩
  | r :: rest =>
    if r.created < minC then
      let s := scan minC minF rest
      ⟨s.served, s.rest, r :: s.kills, s.nTtl + 1, s.nStale⟩
    else if r.released < minF then
      let s := scan minC minF rest
      ⟨s.served, s.rest, r :: s.kills, s.nTtl, s.nStale + 1⟩
    else
      ⟨some r, rest, [], 0, 0⟩

/-- The scan `get_resource` performs, with the thresholds it computes from
its entry snapshot `t0`. -/
def gscan (st : PoolState) (t0 : Int) : ScanResult :=
  scan (minCreatedTime st.max_age t0) (minFreshTime st.max_idle_time t0) st.pool

/-- `get_resource` (pool.py lines 77-118).  `t0` is the `now()` snapshot
taken at entry (line 85); `createOutcome` is what `self.create_resource()`
would produce (`none` models the hook raising); `t1` is the second `now()`
sample used to stamp `CREATED` on a fresh resource (line 116).  Returns the
state after the call, the resources handed to `destroy_resource` in order,
and the outcome (`Except.error` when `create_resource` raised, which in the
source propagates after the scan counters were already updated and the kill
list destroyed). -/
def get_resource (st : PoolState) (t0 : Int) (createOutcome : Option Resource)
    (t1 : Int) : PoolState × List Resource × Except Unit Resource :=
  let s := gscan st t0
  let st1 := { st with
    pool := s.rest
    count_killed_ttl := st.count_killed_ttl + s.nTtl
    count_killed_stale := st.count_killed_stale + s.nStale }
  match s.served with
  | some r =>
    ({ st1 with count_served_from_pool := st1.count_served_from_pool + 1 },
     s.kills, Except.ok r)
  | none =>
    match createOutcome with
    | none => (st1, s.kills, Except.error ())
    | some r0 =>
      ({ st1 with count_created := st1.count_created + 1 },
       s.kills, Except.ok { r0 with created := t1 })

/-- `release_resource(resource)` (pool.py lines 160-181).  The store test is
`(not self.pool_size_limit) or (len(self.__pool) < self.pool_size_limit)`;
`not x` on a Python int is true exactly when `x == 0`.  When stored, the
`RELEASED` timestamp is stamped to `t` and the resource appended at the
back; otherwise `count_overflow_discard` is bumped and the resource is
destroyed.  Returns the new state, the destroy list, and the resource as
the caller's object now reads (its timestamps after the call). -/
def release_resource (st : PoolState) (r : Resource) (t : Int) :
    PoolState × List Resource × Resource :=
  if st.pool_size_limit = 0 ∨ (st.pool.length : Int) < st.pool_size_limit then
    let r' := { r with released := t }
    ({ st with pool := st.pool ++ [r'] }, [], r')
  else
    ({ st with count_overflow_discard := st.count_overflow_discard + 1 },
     [r], r)

/-- `clear_pool(new_pool_size_limit=None)` (pool.py lines 43-60): swap in an
empty idle list, optionally install the new limit, add the old length to
`count_cleared` and destroy every old resource. -/
def clear_pool (st : PoolState) (newLimit : Option Int) :
    PoolState × List Resource :=
  ({ st with
      pool := []
      pool_size_limit := newLimit.getD st.pool_size_limit
      count_cleared := st.count_cleared + st.pool.length },
   st.pool)

/-- `restart_pool(pool_size_limit)` (pool.py line 189): `clear_pool` with
the given limit. -/
def restart_pool (st : PoolState) (limit : Int) : PoolState × List Resource :=
  clear_pool st (some limit)

/-- `shut_down()` (pool.py line 199): `self.clear_pool(-1)`. -/
def shut_down (st : PoolState) : PoolState × List Resource :=
  clear_pool st (some (-1))

/-- The snapshot returned by `get_status` (pool.py lines 120-143). -/
structure Status where
  pool_size : Nat
  pool_size_limit : Int
  count_created : Nat
  count_cleared : Nat
  count_killed_stale : Nat
  count_killed_ttl : Nat
  count_overflow_discard : Nat
  count_served_from_pool : Nat
deriving Repr, DecidableEq

/-- `get_status()` reads the state and mutates nothing. -/
def get_status (st : PoolState) : Status :=
  { pool_size := st.pool.length
    pool_size_limit := st.pool_size_limit
    count_created := st.count_created
    count_cleared := st.count_cleared
    count_killed_stale := st.count_killed_stale
    count_killed_ttl := st.count_killed_ttl
    count_overflow_discard := st.count_overflow_discard
    count_served_from_pool := st.count_served_from_pool }

/-- The environment data one `get_resource` call consumes: the entry
snapshot `t0`, the `create_resource` outcome, and the `CREATED` stamp
time. -/
structure GetIn where
  t0 : Int
  fresh : Option Resource
  t1 : Int
deriving Repr, DecidableEq

/-- The acquire phase of `preheat`: the list comprehension
`[self.get_resource() for x in range(count)]`.  Returns the state, the
accumulated destroy list, and either the acquired resources in order, or
`none` when some `create_resource` call raised (the comprehension then
aborts and the exception propagates out of `preheat`). -/
def getMany (st : PoolState) : List GetIn → PoolState × List Resource × Option (List Resource)
  | [] => (st, [], some [])
  | g :: gs =>
    let p := get_resource st g.t0 g.fresh g.t1
    match p.2.2 with
    | Except.error _ => (p.1, p.2.1, none)
    | Except.ok r =>
      let q := getMany p.1 gs
      (q.1, p.2.1 ++ q.2.1,
       match q.2.2 with
       | none => none
       | some rs => some (r :: rs))

/-- The release phase of `preheat`: `for res in acquired:
self.release_resource(res)`, each call drawing its own `now()` sample from
`ts`. -/
def releaseMany (st : PoolState) : List Resource → List Int → PoolState × List Resource
  | [], _ => (st, [])
  | _ :: _, [] => (st, [])
  | r :: rs, t :: ts =>
    let p := release_resource st r t
    let rec' := releaseMany p.1 rs ts
    (rec'.1, p.2.1 ++ rec'.2)

/-- `preheat(count)` (pool.py lines 145-147): acquire `count` resources
first (the whole list comprehension runs before the loop body), then
release each in order. -/
def preheat (st : PoolState) (ins : List GetIn) (relTimes : List Int) :
    PoolState × List Resource × Bool :=
  let q := getMany st ins
  match q.2.2 with
  | none => (q.1, q.2.1, false)
  | some rs =>
    let p := releaseMany q.1 rs relTimes
    (p.1, q.2.1 ++ p.2, true)

/-- One externally invokable pool operation together with the environment
data (time samples, `create_resource` outcome) it consumes. -/
inductive Op where
  | get (g : GetIn)
  | release (r : Resource) (t : Int)
  | clear (newLimit : Option Int)
  | restart (limit : Int)
  | shutdown
  | preheatOp (ins : List GetIn) (ts : List Int)
  | status
deriving Repr, DecidableEq

/-- Effect of one operation: next state plus the resources it destroyed. -/
def step (st : PoolState) : Op → PoolState × List Resource
  | Op.get g => let p := get_resource st g.t0 g.fresh g.t1; (p.1, p.2.1)
  | Op.release r t => let p := release_resource st r t; (p.1, p.2.1)
  | Op.clear l => clear_pool st l
  | Op.restart l => restart_pool st l
  | Op.shutdown => shut_down st
  | Op.preheatOp ins ts => let p := preheat st ins ts; (p.1, p.2.1)
  | Op.status => (st, [])

/-- Run a sequence of operations, accumulating everything destroyed. -/
def run (st : PoolState) : List Op → PoolState × List Resource
  | [] => (st, [])
  | op :: ops =>
    let p := step st op
    let q := run p.1 ops
    (q.1, p.2 ++ q.2)

/-- Is the operation a plain `get_resource` or `release_resource` call? -/
def isGR : Op → Bool
  | Op.get _ => true
  | Op.release _ _ => true
  | _ => false

/-- Number of `release_resource` calls in a trace. -/
def numReleases : List Op → Nat
  | [] => 0
  | Op.release _ _ :: ops => numReleases ops + 1
  | _ :: ops => numReleases ops

/-- Number of `get_resource` calls in a trace whose `create_resource`
outcome is a resource (the hook does not raise). -/
def numGetsOk : List Op → Nat
  | [] => 0
  | Op.get g :: ops => (if g.fresh.isSome then 1 else 0) + numGetsOk ops
  | _ :: ops => numGetsOk ops

/-- The resources handed to `release_resource` by a trace, in order. -/
def releasedResources : List Op → List Resource
  | [] => []
  | Op.release r _ :: ops => r :: releasedResources ops
  | _ :: ops => releasedResources ops

/-- Total of the three discard counters: a run during which no eviction,
staleness kill or overflow discard fires leaves this unchanged. -/
def killCount (st : PoolState) : Nat :=
  st.count_killed_ttl + st.count_killed_stale + st.count_overflow_discard

/-!
Lock-discipline model for the concurrency claim.  Each pool operation is
transcribed, straight from the source's control flow, as the sequence of
events it performs on the shared state (`self.__pool`, the
`pool_size_limit` attribute and the six counters), on the lock
(`self.__pool_lock.acquire` and `.release`), and the calls it makes to the
`create_resource` and `destroy_resource` collaborators.
-/

/-- The pieces of shared mutable pool state named by the spec. -/
inductive SVar where
  | idleSeq
  | sizeLimit
  | counter
deriving Repr, DecidableEq

/-- One event of an operation: lock acquire and release, a read or write of
a shared variable, or a collaborator call. -/
inductive Ev where
  | acq
  | rel
  | readS (v : SVar)
  | writeS (v : SVar)
  | callCreate
  | callDestroy
deriving Repr, DecidableEq

/-- `_pull` (pool.py lines 149-158): acquire the lock, inspect
`self.__pool`, pop its front when nonempty, release the lock. -/
def pullEvents (nonempty : Bool) : List Ev :=
  [Ev.acq, Ev.readS SVar.idleSeq] ++
  (if nonempty then [Ev.writeS SVar.idleSeq] else []) ++ [Ev.rel]

/-- One iteration of the `get_resource` loop that pulled a resource
(pool.py lines 95-108): the `_pull` events, then one counter increment
(`count_killed_ttl`, `count_killed_stale` or `count_served_from_pool`),
which the source performs after `_pull` has released the lock. -/
def getIterEvents : List Ev := pullEvents true ++ [Ev.writeS SVar.counter]

/-- `get_resource` (pool.py lines 77-118) with `nKills` resources sent to
the kill list and `served` telling whether the loop ended by serving one:
the kill iterations, the final iteration (serve, or a pull from the empty
pool), the `destroy_resource` call per killed resource, and on the create
path the `create_resource` call followed by the `count_created`
increment. -/
def getEvents (nKills : Nat) (served : Bool) : List Ev :=
  (List.replicate nKills getIterEvents).flatten ++
  (if served then getIterEvents else pullEvents false) ++
  List.replicate nKills Ev.callDestroy ++
  (if served then [] else [Ev.callCreate, Ev.writeS SVar.counter])

/-- `release_resource` (pool.py lines 160-181): acquire; read
`pool_size_limit` and the pool length; append to the pool when storing;
release the lock; when not storing, increment `count_overflow_discard` and
call `destroy_resource` — both after the lock was released. -/
def releaseEvents (stored : Bool) : List Ev :=
  [Ev.acq, Ev.readS SVar.sizeLimit, Ev.readS SVar.idleSeq] ++
  (if stored then [Ev.writeS SVar.idleSeq] else []) ++ [Ev.rel] ++
  (if stored then [] else [Ev.writeS SVar.counter, Ev.callDestroy])

/-- `clear_pool` (pool.py lines 43-60) on an idle list of length `n`:
swap the pool and optionally write the new limit under the lock; then add
to `count_cleared` and destroy the old resources outside it. -/
def clearEvents (n : Nat) (newLimit : Bool) : List Ev :=
  [Ev.acq, Ev.readS SVar.idleSeq, Ev.writeS SVar.idleSeq] ++
  (if newLimit then [Ev.writeS SVar.sizeLimit] else []) ++
  [Ev.rel, Ev.writeS SVar.counter] ++ List.replicate n Ev.callDestroy

/-- `get_status` (pool.py lines 120-143): reads `len(self.__pool)`, the
limit and the six counters, without touching the lock. -/
def statusEvents : List Ev :=
  [Ev.readS SVar.idleSeq, Ev.readS SVar.sizeLimit] ++
  List.replicate 6 (Ev.readS SVar.counter)

/-- Lock state after one event. -/
def heldAfter (held : Bool) : Ev → Bool
  | Ev.acq => true
  | Ev.rel => false
  | _ => held

/-- Check a per-event condition `p held e` along a trace, threading the
lock state (`held` starts out false: the caller does not hold the pool
lock when invoking an operation). -/
def eventsOk (p : Bool → Ev → Bool) : Bool → List Ev → Bool
  | _, [] => true
  | held, e :: es => p held e && eventsOk p (heldAfter held e) es

/-- Per-event form of the discipline the claim asserts: a read or write of
any shared variable (idle sequence, size limit, or a counter) requires the
lock to be held. -/
def claimOkAt (held : Bool) : Ev → Bool
  | Ev.readS _ => held
  | Ev.writeS _ => held
  | _ => true

/-- Per-event check: a write of the idle sequence or of `pool_size_limit`
requires the lock to be held. -/
def structOkAt (held : Bool) : Ev → Bool
  | Ev.writeS SVar.idleSeq => held
  | Ev.writeS SVar.sizeLimit => held
  | _ => true

/-- Per-event check: a collaborator call requires the lock NOT held. -/
def callOkAt (held : Bool) : Ev → Bool
  | Ev.callCreate => !held
  | Ev.callDestroy => !held
  | _ => true

/-- The discipline the claim asserts, over a whole trace. -/
def claimDiscipline (tr : List Ev) : Bool := eventsOk claimOkAt false tr

/-- Every write of the idle sequence or of `pool_size_limit` happens with
the lock held. -/
def structWritesLocked (tr : List Ev) : Bool := eventsOk structOkAt false tr

/-- Every `create_resource` or `destroy_resource` call happens with the
lock not held. -/
def callsUnlocked (tr : List Ev) : Bool := eventsOk callOkAt false tr

/-- Lock state after a whole trace. -/
def heldList (held : Bool) (tr : List Ev) : Bool := tr.foldl heldAfter held

/-!  Concrete states and traces used by counterexamples and witnesses.  -/

/-- A pool constructed with `pool_size_limit=0`. -/
def zeroLimitPool : PoolState := initPool 0 3600 300

/-- A pool holding one resource whose `released` stamp is long past:
`max_idle_time` is 300 and the resource was released at time 0. -/
def stalePool : PoolState := { initPool 10 3600 300 with pool := [⟨1, 50, 0⟩] }

/-- A pool with both eviction checks disabled and one valid idle
resource. -/
def idleOnePool : PoolState := { initPool 10 0 0 with pool := [⟨1, 0, 0⟩] }

/-- A default-configured pool holding one idle resource that passes both
freshness checks at time 1000. -/
def freshPool : PoolState :=
  { initPool 10 3600 300 with pool := [⟨1, 900, 950⟩] }

/-- A create/release/acquire trace that recycles a resource: one create,
one release, one acquire served from the pool. -/
def recycleOps : List Op :=
  [Op.get ⟨0, some ⟨1, 0, 0⟩, 0⟩, Op.release ⟨1, 0, 0⟩ 0, Op.get ⟨0, none, 0⟩]

/-- A release followed by an acquisition, used against a shut-down pool. -/
def shutOps : List Op :=
  [Op.release ⟨2, 0, 0⟩ 7, Op.get ⟨0, some ⟨3, 0, 0⟩, 0⟩]

/-- The spec's size invariant: whenever `pool_size_limit` is positive, the
idle sequence is no longer than it. -/
def sizeInv (st : PoolState) : Prop :=
  0 < st.pool_size_limit → (st.pool.length : Int) ≤ st.pool_size_limit

/-- Three successful acquisitions for a `preheat(3)` call. -/
def preheatIns : List GetIn :=
  [⟨0, some ⟨1, 0, 0⟩, 0⟩, ⟨0, some ⟨2, 0, 0⟩, 0⟩, ⟨0, some ⟨3, 0, 0⟩, 0⟩]

/-!  Basic facts about the pull-loop scan.  -/

theorem scan_served_none {minC minF : Int} {l : List Resource}
    (h : (scan minC minF l).served = none) :
    (scan minC minF l).rest = [] ∧ (scan minC minF l).kills = l ∧
    (scan minC minF l).nTtl + (scan minC minF l).nStale = l.length := by
  induction l with
  | nil => simp [scan]
  | cons r rest ih =>
    by_cases hc : r.created < minC
    · simp only [scan, if_pos hc] at h ⊢
      obtain ⟨h1, h2, h3⟩ := ih h
      refine ⟨h1, by rw [h2], by simp only [List.length_cons]; omega⟩
    · by_cases hf : r.released < minF
      · simp only [scan, if_neg hc, if_pos hf] at h ⊢
        obtain ⟨h1, h2, h3⟩ := ih h
        refine ⟨h1, by rw [h2], by simp only [List.length_cons]; omega⟩
      · simp [scan, if_neg hc, if_neg hf] at h

theorem scan_nTtl_zero {minC minF : Int} {l : List Resource}
    (h : ∀ r ∈ l, ¬ r.created < minC) : (scan minC minF l).nTtl = 0 := by
  induction l with
  | nil => simp [scan]
  | cons r rest ih =>
    have hc : ¬ r.created < minC := h r (by simp)
    by_cases hf : r.released < minF
    · simp only [scan, if_neg hc, if_pos hf]
      exact ih fun x hx => h x (by simp [hx])
    · simp [scan, if_neg hc, if_neg hf]

theorem scan_nStale_zero {minC minF : Int} {l : List Resource}
    (h : ∀ r ∈ l, ¬ r.released < minF) : (scan minC minF l).nStale = 0 := by
  induction l with
  | nil => simp [scan]
  | cons r rest ih =>
    have hf : ¬ r.released < minF := h r (by simp)
    by_cases hc : r.created < minC
    · simp only [scan, if_pos hc]
      exact ih fun x hx => h x (by simp [hx])
    · simp [scan, if_neg hc, if_neg hf]

theorem scan_rest_le {minC minF : Int} (l : List Resource) :
    (scan minC minF l).rest.length ≤ l.length := by
  induction l with
  | nil => simp [scan]
  | cons r rest ih =>
    by_cases hc : r.created < minC
    · simp only [scan, if_pos hc]
      exact Nat.le_succ_of_le ih
    · by_cases hf : r.released < minF
      · simp only [scan, if_neg hc, if_pos hf]
        exact Nat.le_succ_of_le ih
      · simp [scan, if_neg hc, if_neg hf]

theorem scan_no_kills {minC minF : Int} {l : List Resource}
    (h1 : (scan minC minF l).nTtl = 0) (h2 : (scan minC minF l).nStale = 0) :
    (l = [] ∧ (scan minC minF l).served = none ∧ (scan minC minF l).rest = []) ∨
    (∃ r t, l = r :: t ∧ (scan minC minF l).served = some r ∧
      (scan minC minF l).rest = t ∧ (scan minC minF l).kills = []) := by
  cases l with
  | nil => exact Or.inl ⟨rfl, rfl, rfl⟩
  | cons r rest =>
    by_cases hc : r.created < minC
    · simp [scan, if_pos hc] at h1
    · by_cases hf : r.released < minF
      · simp [scan, if_neg hc, if_pos hf] at h2
      · exact Or.inr ⟨r, rest, rfl, by simp [scan, if_neg hc, if_neg hf],
          by simp [scan, if_neg hc, if_neg hf], by simp [scan, if_neg hc, if_neg hf]⟩

/-!  Field-level description of ``get_resource`` in terms of its scan.  -/

theorem get_resource_eq_served (st : PoolState) (t0 : Int)
    (co : Option Resource) (t1 : Int) (r : Resource)
    (hs : (gscan st t0).served = some r) :
    get_resource st t0 co t1 =
      ({ st with
          pool := (gscan st t0).rest
          count_killed_ttl := st.count_killed_ttl + (gscan st t0).nTtl
          count_killed_stale := st.count_killed_stale + (gscan st t0).nStale
          count_served_from_pool := st.count_served_from_pool + 1 },
       (gscan st t0).kills, Except.ok r) := by
  simp only [get_resource, hs]

theorem get_resource_eq_error (st : PoolState) (t0 t1 : Int)
    (hs : (gscan st t0).served = none) :
    get_resource st t0 none t1 =
      ({ st with
          pool := (gscan st t0).rest
          count_killed_ttl := st.count_killed_ttl + (gscan st t0).nTtl
          count_killed_stale := st.count_killed_stale + (gscan st t0).nStale },
       (gscan st t0).kills, Except.error ()) := by
  simp only [get_resource, hs]

theorem get_resource_eq_created (st : PoolState) (t0 : Int) (r0 : Resource)
    (t1 : Int) (hs : (gscan st t0).served = none) :
    get_resource st t0 (some r0) t1 =
      ({ st with
          pool := (gscan st t0).rest
          count_killed_ttl := st.count_killed_ttl + (gscan st t0).nTtl
          count_killed_stale := st.count_killed_stale + (gscan st t0).nStale
          count_created := st.count_created + 1 },
       (gscan st t0).kills, Except.ok { r0 with created := t1 }) := by
  simp only [get_resource, hs]

/-- Claim C1, counterexample.  On a pool constructed with
`pool_size_limit = 0` the store test `(not self.pool_size_limit) or ...`
succeeds (Python `not 0` is true), so a released resource IS stored: the
idle sequence changes, `count_overflow_discard` stays put and nothing is
destroyed — the claim asserts the opposite for every limit `<= 0`. -/
theorem c1_counterexample :
    zeroLimitPool.pool_size_limit ≤ 0 ∧
    (release_resource zeroLimitPool ⟨1, 0, 0⟩ 5).1.pool ≠ zeroLimitPool.pool ∧
    (release_resource zeroLimitPool ⟨1, 0, 0⟩ 5).1.count_overflow_discard =
      zeroLimitPool.count_overflow_discard ∧
    (release_resource zeroLimitPool ⟨1, 0, 0⟩ 5).2.1 = [] := by
  decide

/-- Claim C1 (corrected): for every `release_resource` call on a pool whose
`pool_size_limit` is strictly negative, the resource is not stored, the
idle sequence is unchanged, `count_overflow_discard` increments by exactly
1 and the resource is handed to `destroy_resource`.  (At limit exactly 0
the source stores unboundedly instead.) -/
theorem c1_release_negative_limit_discards (st : PoolState) (r : Resource)
    (t : Int) (h : st.pool_size_limit < 0) :
    release_resource st r t =
      ({ st with count_overflow_discard := st.count_overflow_discard + 1 },
       [r], r) := by
  unfold release_resource
  rw [if_neg (by omega)]

/-- Claim C1, witness: the corrected statement at a concrete shut-down
style pool (limit -1). -/
theorem c1_witness :
    release_resource (initPool (-1) 3600 300) ⟨1, 0, 0⟩ 5 =
      ({ initPool (-1) 3600 300 with count_overflow_discard := 1 },
       [⟨1, 0, 0⟩], ⟨1, 0, 0⟩) :=
  c1_release_negative_limit_discards (initPool (-1) 3600 300) ⟨1, 0, 0⟩ 5
    (by decide)

/-- Claim C10 (confirmed): `release_resource` never touches the `CREATED`
stamp or the resource identity; it stamps `RELEASED` (to the call's `now()`
sample) exactly when the resource is stored, in which case the idle list
gains that resource at the back; an overflow-discarded resource is returned
to the destroy hook with both timestamps untouched and the idle list
unchanged. -/
theorem c10_release_frame (st : PoolState) (r : Resource) (t : Int) :
    (release_resource st r t).2.2.created = r.created ∧
    (release_resource st r t).2.2.rid = r.rid ∧
    ((release_resource st r t).2.1 = [] →
      (release_resource st r t).2.2 = { r with released := t } ∧
      (release_resource st r t).1.pool = st.pool ++ [{ r with released := t }]) ∧
    ((release_resource st r t).2.1 ≠ [] →
      (release_resource st r t).2.2 = r ∧
      (release_resource st r t).1.pool = st.pool) := by
  unfold release_resource
  split <;> simp

/-- Claim C10, witness: a stored release stamps only `released`. -/
theorem c10_witness :
    (release_resource (initPool 10 3600 300) ⟨1, 2, 3⟩ 7).2.2 = ⟨1, 2, 7⟩ ∧
    (release_resource (initPool 10 3600 300) ⟨1, 2, 3⟩ 7).1.pool = [⟨1, 2, 7⟩] :=
  (c10_release_frame (initPool 10 3600 300) ⟨1, 2, 3⟩ 7).2.2.1 (by decide)

/-- Claim C8 (confirmed): with `max_age = 0` the ttl check compares
`created` against 0 and a pool of resources with nonnegative `CREATED`
stamps (every stamp the pool writes is a `now()` value) is never
ttl-killed; symmetrically for `max_idle_time = 0` and the stale check. -/
theorem c8_zero_disables_eviction (st : PoolState) (t0 : Int)
    (co : Option Resource) (t1 : Int) :
    (st.max_age = 0 → (∀ r ∈ st.pool, 0 ≤ r.created) →
      (get_resource st t0 co t1).1.count_killed_ttl = st.count_killed_ttl) ∧
    (st.max_idle_time = 0 → (∀ r ∈ st.pool, 0 ≤ r.released) →
      (get_resource st t0 co t1).1.count_killed_stale = st.count_killed_stale) := by
  constructor
  · intro hage hpos
    have hz : (gscan st t0).nTtl = 0 := by
      apply scan_nTtl_zero
      intro r hr
      have := hpos r hr
      simp only [minCreatedTime, hage]
      omega
    cases hs : (gscan st t0).served with
    | some r => rw [get_resource_eq_served st t0 co t1 r hs]; simp [hz]
    | none =>
      cases co with
      | none => rw [get_resource_eq_error st t0 t1 hs]; simp [hz]
      | some r0 => rw [get_resource_eq_created st t0 r0 t1 hs]; simp [hz]
  · intro hidle hpos
    have hz : (gscan st t0).nStale = 0 := by
      apply scan_nStale_zero
      intro r hr
      have := hpos r hr
      simp only [minFreshTime, hidle]
      omega
    cases hs : (gscan st t0).served with
    | some r => rw [get_resource_eq_served st t0 co t1 r hs]; simp [hz]
    | none =>
      cases co with
      | none => rw [get_resource_eq_error st t0 t1 hs]; simp [hz]
      | some r0 => rw [get_resource_eq_created st t0 r0 t1 hs]; simp [hz]

/-- Claim C8, witness: a pool with both checks disabled and an idle
resource whose stamps are ancient serves it without either kill counter
moving. -/
theorem c8_witness :
    (get_resource idleOnePool 1000000 none 1000000).1.count_killed_ttl = 0 ∧
    (get_resource idleOnePool 1000000 none 1000000).1.count_killed_stale = 0 :=
  ⟨(c8_zero_disables_eviction idleOnePool 1000000 none 1000000).1
      (by decide) (by decide),
   (c8_zero_disables_eviction idleOnePool 1000000 none 1000000).2
      (by decide) (by decide)⟩

/-- Claim C2, counterexample.  `stalePool` holds one resource whose
`RELEASED` stamp (0) is older than `t0 - max_idle_time = 700`: the scan
evicts it and bumps `count_killed_stale` before `create_resource` is
reached, so when creation then raises, the pool state is NOT exactly as it
was at entry — a counter moved and the idle sequence shrank. -/
theorem c2_counterexample :
    (get_resource stalePool 1000 none 1001).2.2 = Except.error () ∧
    (get_resource stalePool 1000 none 1001).1.count_killed_stale = 1 ∧
    stalePool.count_killed_stale = 0 ∧
    (get_resource stalePool 1000 none 1001).1.pool ≠ stalePool.pool :=
  ⟨rfl, rfl, rfl, by decide⟩

/-- Claim C2 (corrected): when `create_resource` raises inside
`get_resource`, the failure propagates unmodified and no partial credit is
taken — `count_created`, `count_served_from_pool`,
`count_overflow_discard`, `count_cleared` and the configuration are
unchanged and nothing is added to the idle sequence.  The only state
changes are those of the eviction scan that ran before the creation
attempt: the idle sequence has been drained (every formerly idle resource
was handed to `destroy_resource`, in order) and the two kill counters
together advanced by exactly the number of drained resources.  In
particular, if the idle sequence was empty at entry the state is exactly
as it was. -/
theorem c2_create_failure (st : PoolState) (t0 t1 : Int)
    (herr : (get_resource st t0 none t1).2.2 = Except.error ()) :
    (get_resource st t0 none t1).1.count_created = st.count_created ∧
    (get_resource st t0 none t1).1.count_served_from_pool =
      st.count_served_from_pool ∧
    (get_resource st t0 none t1).1.count_overflow_discard =
      st.count_overflow_discard ∧
    (get_resource st t0 none t1).1.count_cleared = st.count_cleared ∧
    (get_resource st t0 none t1).1.pool_size_limit = st.pool_size_limit ∧
    (get_resource st t0 none t1).1.max_age = st.max_age ∧
    (get_resource st t0 none t1).1.max_idle_time = st.max_idle_time ∧
    (get_resource st t0 none t1).1.pool = [] ∧
    (get_resource st t0 none t1).2.1 = st.pool ∧
    (get_resource st t0 none t1).1.count_killed_ttl +
      (get_resource st t0 none t1).1.count_killed_stale =
      st.count_killed_ttl + st.count_killed_stale + st.pool.length ∧
    (st.pool = [] → (get_resource st t0 none t1).1 = st) := by
  cases hs : (gscan st t0).served with
  | some r =>
    rw [get_resource_eq_served st t0 none t1 r hs] at herr
    exact absurd herr (by simp)
  | none =>
    obtain ⟨h1, h2, h3⟩ := scan_served_none (l := st.pool) hs
    have g1 : (gscan st t0).rest = [] := h1
    have g2 : (gscan st t0).kills = st.pool := h2
    have g3 : (gscan st t0).nTtl + (gscan st t0).nStale = st.pool.length := h3
    rw [get_resource_eq_error st t0 t1 hs]
    refine ⟨rfl, rfl, rfl, rfl, rfl, rfl, rfl, g1, g2, ?_, ?_⟩
    · change st.count_killed_ttl + (gscan st t0).nTtl +
        (st.count_killed_stale + (gscan st t0).nStale) =
        st.count_killed_ttl + st.count_killed_stale + st.pool.length
      omega
    intro hp
    have hl : st.pool.length = 0 := by rw [hp]; rfl
    have e1 : (gscan st t0).nTtl = 0 := by omega
    have e2 : (gscan st t0).nStale = 0 := by omega
    rw [g1, e1, e2, Nat.add_zero, Nat.add_zero, ← hp]

/-- Claim C2, witness: on an empty pool a failing creation leaves the
state exactly unchanged. -/
theorem c2_witness :
    (get_resource (initPool 10 3600 300) 0 none 0).1 =
      initPool 10 3600 300 :=
  (c2_create_failure (initPool 10 3600 300) 0 0
    rfl).2.2.2.2.2.2.2.2.2.2 rfl

/-- Claim C3, counterexample.  With `max_age = 0` the source compares
`CREATED` against the constant 0 (the check is disabled), not against
`t0 - max_age`: at `t0 = 100` this pool's idle resource has
`createdAt = 0 < 100 - 0`, so the claim as stated demands a ttl kill, yet
the call serves the resource, destroys nothing, and leaves
`count_killed_ttl` at 0. -/
theorem c3_counterexample :
    idleOnePool.pool = [⟨1, 0, 0⟩] ∧
    (⟨1, 0, 0⟩ : Resource).created < 100 - idleOnePool.max_age ∧
    (get_resource idleOnePool 100 none 100).1.count_killed_ttl = 0 ∧
    (get_resource idleOnePool 100 none 100).2.2 = Except.ok ⟨1, 0, 0⟩ ∧
    (get_resource idleOnePool 100 none 100).2.1 = [] :=
  ⟨rfl, by decide, rfl, rfl, rfl⟩

/-- Claim C3 (corrected): one time snapshot `t0` is taken at call entry
and the scan classifies each pulled front resource with thresholds derived
once from that same `t0` — `t0 - max_age` when `max_age` is nonzero (0
when `max_age = 0`, disabling the check) and `t0 - max_idle_time` when
`max_idle_time` is nonzero (0 otherwise).  An expired front resource bumps
`count_killed_ttl`, is destroyed first, and the call continues as the same
call on the remaining sequence with the SAME `t0` (never re-sampled); a
stale front resource does likewise with `count_killed_stale`; a valid
front resource bumps `count_served_from_pool` and is returned. -/
theorem c3_single_snapshot_scan (st : PoolState) (r : Resource)
    (rest : List Resource) (t0 : Int) (co : Option Resource) (t1 : Int)
    (hp : st.pool = r :: rest) :
    (r.created < minCreatedTime st.max_age t0 →
      get_resource st t0 co t1 =
        ((get_resource { st with
            pool := rest, count_killed_ttl := st.count_killed_ttl + 1 } t0 co t1).1,
         r :: (get_resource { st with
            pool := rest, count_killed_ttl := st.count_killed_ttl + 1 } t0 co t1).2.1,
         (get_resource { st with
            pool := rest, count_killed_ttl := st.count_killed_ttl + 1 } t0 co t1).2.2)) ∧
    (¬ r.created < minCreatedTime st.max_age t0 →
     r.released < minFreshTime st.max_idle_time t0 →
      get_resource st t0 co t1 =
        ((get_resource { st with
            pool := rest, count_killed_stale := st.count_killed_stale + 1 } t0 co t1).1,
         r :: (get_resource { st with
            pool := rest, count_killed_stale := st.count_killed_stale + 1 } t0 co t1).2.1,
         (get_resource { st with
            pool := rest, count_killed_stale := st.count_killed_stale + 1 } t0 co t1).2.2)) ∧
    (¬ r.created < minCreatedTime st.max_age t0 →
     ¬ r.released < minFreshTime st.max_idle_time t0 →
      get_resource st t0 co t1 =
        ({ st with
            pool := rest, count_served_from_pool := st.count_served_from_pool + 1 },
         [], Except.ok r)) := by
  refine ⟨?_, ?_, ?_⟩
  · intro hc
    have hgs : gscan st t0 =
        ⟨(gscan { st with
            pool := rest, count_killed_ttl := st.count_killed_ttl + 1 } t0).served,
         (gscan { st with
            pool := rest, count_killed_ttl := st.count_killed_ttl + 1 } t0).rest,
         r :: (gscan { st with
            pool := rest, count_killed_ttl := st.count_killed_ttl + 1 } t0).kills,
         (gscan { st with
            pool := rest, count_killed_ttl := st.count_killed_ttl + 1 } t0).nTtl + 1,
         (gscan { st with
            pool := rest, count_killed_ttl := st.count_killed_ttl + 1 } t0).nStale⟩ := by
      simp [gscan, hp, scan, hc]
    cases hs : (gscan { st with
        pool := rest, count_killed_ttl := st.count_killed_ttl + 1 } t0).served with
    | some r2 =>
      have hserved : (gscan st t0).served = some r2 := by rw [hgs]; exact hs
      rw [get_resource_eq_served st t0 co t1 r2 hserved,
          get_resource_eq_served _ t0 co t1 r2 hs]
      simp [hgs]
      omega
    | none =>
      cases co with
      | none =>
        have hserved : (gscan st t0).served = none := by rw [hgs]; exact hs
        rw [get_resource_eq_error st t0 t1 hserved,
            get_resource_eq_error _ t0 t1 hs]
        simp [hgs]
        omega
      | some r0 =>
        have hserved : (gscan st t0).served = none := by rw [hgs]; exact hs
        rw [get_resource_eq_created st t0 r0 t1 hserved,
            get_resource_eq_created _ t0 r0 t1 hs]
        simp [hgs]
        omega
  · intro hc hf
    have hgs : gscan st t0 =
        ⟨(gscan { st with
            pool := rest, count_killed_stale := st.count_killed_stale + 1 } t0).served,
         (gscan { st with
            pool := rest, count_killed_stale := st.count_killed_stale + 1 } t0).rest,
         r :: (gscan { st with
            pool := rest, count_killed_stale := st.count_killed_stale + 1 } t0).kills,
         (gscan { st with
            pool := rest, count_killed_stale := st.count_killed_stale + 1 } t0).nTtl,
         (gscan { st with
            pool := rest, count_killed_stale := st.count_killed_stale + 1 } t0).nStale + 1⟩ := by
      simp [gscan, hp, scan, hc, hf]
    cases hs : (gscan { st with
        pool := rest, count_killed_stale := st.count_killed_stale + 1 } t0).served with
    | some r2 =>
      have hserved : (gscan st t0).served = some r2 := by rw [hgs]; exact hs
      rw [get_resource_eq_served st t0 co t1 r2 hserved,
          get_resource_eq_served _ t0 co t1 r2 hs]
      simp [hgs]
      omega
    | none =>
      cases co with
      | none =>
        have hserved : (gscan st t0).served = none := by rw [hgs]; exact hs
        rw [get_resource_eq_error st t0 t1 hserved,
            get_resource_eq_error _ t0 t1 hs]
        simp [hgs]
        omega
      | some r0 =>
        have hserved : (gscan st t0).served = none := by rw [hgs]; exact hs
        rw [get_resource_eq_created st t0 r0 t1 hserved,
            get_resource_eq_created _ t0 r0 t1 hs]
        simp [hgs]
        omega
  · intro hc hf
    have hgs : gscan st t0 = ⟨some r, rest, [], 0, 0⟩ := by
      simp [gscan, hp, scan, hc, hf]
    rw [get_resource_eq_served st t0 co t1 r (by rw [hgs])]
    simp [hgs]

/-- Claim C3, witness: a valid front resource is served, with
`count_served_from_pool` bumped and nothing destroyed. -/
theorem c3_witness :
    get_resource freshPool 1000 none 1000 =
      ({ freshPool with pool := [], count_served_from_pool := 1 },
       [], Except.ok ⟨1, 900, 950⟩) :=
  (c3_single_snapshot_scan freshPool ⟨1, 900, 950⟩ [] 1000 none 1000
    rfl).2.2 (by decide) (by decide)

/-!  Frame facts about single operations, used by the trace theorems.  -/

theorem get_resource_frame (st : PoolState) (t0 : Int) (co : Option Resource)
    (t1 : Int) :
    (get_resource st t0 co t1).1.pool = (gscan st t0).rest ∧
    (get_resource st t0 co t1).1.count_killed_ttl =
      st.count_killed_ttl + (gscan st t0).nTtl ∧
    (get_resource st t0 co t1).1.count_killed_stale =
      st.count_killed_stale + (gscan st t0).nStale ∧
    (get_resource st t0 co t1).1.count_overflow_discard =
      st.count_overflow_discard ∧
    (get_resource st t0 co t1).1.count_cleared = st.count_cleared ∧
    (get_resource st t0 co t1).1.pool_size_limit = st.pool_size_limit ∧
    (get_resource st t0 co t1).1.max_age = st.max_age ∧
    (get_resource st t0 co t1).1.max_idle_time = st.max_idle_time := by
  cases hs : (gscan st t0).served with
  | some r =>
    rw [get_resource_eq_served st t0 co t1 r hs]
    exact ⟨rfl, rfl, rfl, rfl, rfl, rfl, rfl, rfl⟩
  | none =>
    cases co with
    | none =>
      rw [get_resource_eq_error st t0 t1 hs]
      exact ⟨rfl, rfl, rfl, rfl, rfl, rfl, rfl, rfl⟩
    | some r0 =>
      rw [get_resource_eq_created st t0 r0 t1 hs]
      exact ⟨rfl, rfl, rfl, rfl, rfl, rfl, rfl, rfl⟩

theorem release_stored (st : PoolState) (r : Resource) (t : Int)
    (h : st.pool_size_limit = 0 ∨ (st.pool.length : Int) < st.pool_size_limit) :
    release_resource st r t =
      ({ st with pool := st.pool ++ [{ r with released := t }] },
       [], { r with released := t }) := by
  unfold release_resource
  rw [if_pos h]

theorem release_discarded (st : PoolState) (r : Resource) (t : Int)
    (h : ¬ (st.pool_size_limit = 0 ∨ (st.pool.length : Int) < st.pool_size_limit)) :
    release_resource st r t =
      ({ st with count_overflow_discard := st.count_overflow_discard + 1 },
       [r], r) := by
  unfold release_resource
  rw [if_neg h]

theorem get_killCount (st : PoolState) (t0 : Int) (co : Option Resource)
    (t1 : Int) :
    killCount (get_resource st t0 co t1).1 =
      killCount st + (gscan st t0).nTtl + (gscan st t0).nStale := by
  obtain ⟨-, h2, h3, h4, -⟩ := get_resource_frame st t0 co t1
  simp only [killCount, h2, h3, h4]
  omega

theorem release_killCount (st : PoolState) (r : Resource) (t : Int) :
    killCount st ≤ killCount (release_resource st r t).1 := by
  by_cases h : st.pool_size_limit = 0 ∨ (st.pool.length : Int) < st.pool_size_limit
  · rw [release_stored st r t h]
    exact Nat.le_refl _
  · rw [release_discarded st r t h]
    simp [killCount]

theorem getMany_killCount (ins : List GetIn) :
    ∀ st : PoolState, killCount st ≤ killCount (getMany st ins).1 := by
  induction ins with
  | nil => intro st; exact Nat.le_refl _
  | cons g gs ih =>
    intro st
    have h1 : killCount st ≤ killCount (get_resource st g.t0 g.fresh g.t1).1 := by
      rw [get_killCount]
      omega
    cases hres : (get_resource st g.t0 g.fresh g.t1).2.2 with
    | error e => simpa [getMany, hres] using h1
    | ok r =>
      have h2 := ih (get_resource st g.t0 g.fresh g.t1).1
      simp only [getMany, hres]
      exact Nat.le_trans h1 h2

theorem releaseMany_killCount (rs : List Resource) :
    ∀ (ts : List Int) (st : PoolState),
      killCount st ≤ killCount (releaseMany st rs ts).1 := by
  induction rs with
  | nil => intro ts st; cases ts <;> exact Nat.le_refl _
  | cons r rs ih =>
    intro ts st
    cases ts with
    | nil => exact Nat.le_refl _
    | cons t ts =>
      exact Nat.le_trans (release_killCount st r t)
        (ih ts (release_resource st r t).1)

theorem preheat_killCount (st : PoolState) (ins : List GetIn)
    (ts : List Int) : killCount st ≤ killCount (preheat st ins ts).1 := by
  cases hres : (getMany st ins).2.2 with
  | none => simpa [preheat, hres] using getMany_killCount ins st
  | some rs =>
    simp only [preheat, hres]
    exact Nat.le_trans (getMany_killCount ins st)
      (releaseMany_killCount rs ts (getMany st ins).1)

theorem step_killCount (st : PoolState) (op : Op) :
    killCount st ≤ killCount (step st op).1 := by
  cases op with
  | get g =>
    show killCount st ≤ killCount (get_resource st g.t0 g.fresh g.t1).1
    rw [get_killCount]
    omega
  | release r t => exact release_killCount st r t
  | clear l => exact Nat.le_refl _
  | restart l => exact Nat.le_refl _
  | shutdown => exact Nat.le_refl _
  | preheatOp ins ts => exact preheat_killCount st ins ts
  | status => exact Nat.le_refl _

theorem run_killCount (ops : List Op) :
    ∀ st : PoolState, killCount st ≤ killCount (run st ops).1 := by
  induction ops with
  | nil => intro st; exact Nat.le_refl _
  | cons op rest ih =>
    intro st
    exact Nat.le_trans (step_killCount st op) (ih (step st op).1)

theorem numReleases_cons (op : Op) (ops : List Op) :
    numReleases (op :: ops) = numReleases [op] + numReleases ops := by
  cases op with
  | release r t => simp [numReleases]; omega
  | get g => simp [numReleases]
  | clear l => simp [numReleases]
  | restart l => simp [numReleases]
  | shutdown => simp [numReleases]
  | preheatOp ins ts => simp [numReleases]
  | status => simp [numReleases]

theorem stepGR_identity (st : PoolState) (op : Op) (hgr : isGR op = true)
    (hk : killCount (step st op).1 = killCount st) :
    ((step st op).1.count_served_from_pool : Int) + (step st op).1.pool.length =
      st.count_served_from_pool + st.pool.length + numReleases [op] := by
  cases op with
  | get g =>
    have hstep : (step st (Op.get g)).1 = (get_resource st g.t0 g.fresh g.t1).1 := rfl
    rw [hstep] at hk ⊢
    have hks := get_killCount st g.t0 g.fresh g.t1
    have hT : (gscan st g.t0).nTtl = 0 := by omega
    have hS : (gscan st g.t0).nStale = 0 := by omega
    have hT' : (scan (minCreatedTime st.max_age g.t0)
        (minFreshTime st.max_idle_time g.t0) st.pool).nTtl = 0 := hT
    have hS' : (scan (minCreatedTime st.max_age g.t0)
        (minFreshTime st.max_idle_time g.t0) st.pool).nStale = 0 := hS
    rcases scan_no_kills hT' hS' with ⟨hl, hserved, hrest⟩ |
      ⟨r, tl, hl, hserved, hrest, -⟩
    · have hserved' : (gscan st g.t0).served = none := hserved
      have hrest' : (gscan st g.t0).rest = [] := hrest
      cases hco : g.fresh with
      | none =>
        rw [get_resource_eq_error st g.t0 g.t1 hserved']
        simp [numReleases, hrest', hl]
      | some r0 =>
        rw [get_resource_eq_created st g.t0 r0 g.t1 hserved']
        simp [numReleases, hrest', hl]
    · have hserved' : (gscan st g.t0).served = some r := hserved
      have hrest' : (gscan st g.t0).rest = tl := hrest
      rw [get_resource_eq_served st g.t0 g.fresh g.t1 r hserved']
      simp [numReleases, hrest', hl]
      omega
  | release r t =>
    have hstep : (step st (Op.release r t)).1 = (release_resource st r t).1 := rfl
    rw [hstep] at hk ⊢
    by_cases h : st.pool_size_limit = 0 ∨ (st.pool.length : Int) < st.pool_size_limit
    · rw [release_stored st r t h]
      simp [numReleases]
      omega
    · rw [release_discarded st r t h] at hk
      simp [killCount] at hk
  | clear l => simp [isGR] at hgr
  | restart l => simp [isGR] at hgr
  | shutdown => simp [isGR] at hgr
  | preheatOp ins ts => simp [isGR] at hgr
  | status => simp [isGR] at hgr

theorem runGR_identity (ops : List Op) :
    ∀ st : PoolState, (∀ op ∈ ops, isGR op = true) →
      killCount (run st ops).1 = killCount st →
      ((run st ops).1.count_served_from_pool : Int) + (run st ops).1.pool.length =
        st.count_served_from_pool + st.pool.length + numReleases ops := by
  induction ops with
  | nil => intro st _ _; simp [run, numReleases]
  | cons op rest ih =>
    intro st hgr hk
    have hrun : (run st (op :: rest)).1 = (run (step st op).1 rest).1 := rfl
    rw [hrun] at hk ⊢
    have m1 := step_killCount st op
    have m2 := run_killCount rest (step st op).1
    have hk1 : killCount (step st op).1 = killCount st := by omega
    have hk2 : killCount (run (step st op).1 rest).1 = killCount (step st op).1 := by
      omega
    have e1 := stepGR_identity st op (hgr op (by simp)) hk1
    have e2 := ih (step st op).1 (fun o ho => hgr o (by simp [ho])) hk2
    rw [numReleases_cons]
    omega

/-- Claim C4, counterexample.  The trace create, release, acquire-again
(recycling, no eviction, no overflow) ends with `count_created = 1`,
`count_served_from_pool = 1`, one resource live and none idle: the claim's
quantity `count_created - count_served_from_pool` is 0 while the net
number of live-plus-idle resources (successful acquisitions minus
releases, plus idle length) is 1. -/
theorem c4_counterexample :
    (∀ op ∈ recycleOps, isGR op = true) ∧
    (run (initPool 10 0 0) recycleOps).1.count_killed_ttl = 0 ∧
    (run (initPool 10 0 0) recycleOps).1.count_killed_stale = 0 ∧
    (run (initPool 10 0 0) recycleOps).1.count_overflow_discard = 0 ∧
    ((run (initPool 10 0 0) recycleOps).1.count_created : Int) -
        (run (initPool 10 0 0) recycleOps).1.count_served_from_pool ≠
      (((run (initPool 10 0 0) recycleOps).1.count_created +
          (run (initPool 10 0 0) recycleOps).1.count_served_from_pool : Int) -
        numReleases recycleOps) +
      (run (initPool 10 0 0) recycleOps).1.pool.length := by
  refine ⟨?_, rfl, rfl, rfl, by decide⟩
  decide

/-- Claim C4 (corrected): over any get/release trace from a fresh pool
that triggers no ttl kill, no stale kill and no overflow discard,
`count_created` alone (not `count_created - count_served_from_pool`)
equals the net number of live resources (successful acquisitions, i.e.
the created plus served counters, minus release calls) plus the idle
length; no resource is fabricated while a valid one is available, since a
kill-free acquisition serves the pool front whenever the pool is
nonempty. -/
theorem c4_created_accounting (limit maxa maxi : Int) (ops : List Op)
    (hgr : ∀ op ∈ ops, isGR op = true)
    (h1 : (run (initPool limit maxa maxi) ops).1.count_killed_ttl = 0)
    (h2 : (run (initPool limit maxa maxi) ops).1.count_killed_stale = 0)
    (h3 : (run (initPool limit maxa maxi) ops).1.count_overflow_discard = 0) :
    ((run (initPool limit maxa maxi) ops).1.count_created : Int) =
      (((run (initPool limit maxa maxi) ops).1.count_created +
          (run (initPool limit maxa maxi) ops).1.count_served_from_pool : Int) -
        numReleases ops) +
      (run (initPool limit maxa maxi) ops).1.pool.length := by
  have hk : killCount (run (initPool limit maxa maxi) ops).1 =
      killCount (initPool limit maxa maxi) := by
    simp only [killCount, h1, h2, h3]
    rfl
  have hid := runGR_identity ops (initPool limit maxa maxi) hgr hk
  have e0 : (initPool limit maxa maxi).count_served_from_pool = 0 := rfl
  have e1 : (initPool limit maxa maxi).pool.length = 0 := rfl
  rw [e0, e1] at hid
  omega

/-- Claim C4, witness: the corrected identity on the recycling trace. -/
theorem c4_witness :
    ((run (initPool 10 0 0) recycleOps).1.count_created : Int) =
      (((run (initPool 10 0 0) recycleOps).1.count_created +
          (run (initPool 10 0 0) recycleOps).1.count_served_from_pool : Int) -
        numReleases recycleOps) +
      (run (initPool 10 0 0) recycleOps).1.pool.length :=
  c4_created_accounting 10 0 0 recycleOps (by decide) rfl rfl rfl

theorem run_cons (st : PoolState) (op : Op) (ops : List Op) :
    run st (op :: ops) =
      ((run (step st op).1 ops).1,
       (step st op).2 ++ (run (step st op).1 ops).2) := rfl

theorem step_get_empty_none (st : PoolState) (g : GetIn)
    (hp : st.pool = []) (hco : g.fresh = none) :
    step st (Op.get g) = (st, []) := by
  obtain ⟨p, lim, ma, mi, cc, ccr, cks, ckt, cod, csp⟩ := st
  simp only at hp
  subst hp
  simp only [step]
  rw [hco]
  rfl

theorem step_get_empty_some (st : PoolState) (g : GetIn) (r0 : Resource)
    (hp : st.pool = []) (hco : g.fresh = some r0) :
    step st (Op.get g) =
      ({ st with count_created := st.count_created + 1 }, []) := by
  obtain ⟨p, lim, ma, mi, cc, ccr, cks, ckt, cod, csp⟩ := st
  simp only at hp
  subst hp
  simp only [step]
  rw [hco]
  rfl

theorem step_release_neg (st : PoolState) (r : Resource) (t : Int)
    (hl : st.pool_size_limit < 0) :
    step st (Op.release r t) =
      ({ st with count_overflow_discard := st.count_overflow_discard + 1 },
       [r]) := by
  simp only [step]
  rw [release_discarded st r t (by push_neg; constructor <;> omega)]

theorem runGR_negative_limit (ops : List Op) :
    ∀ st : PoolState, st.pool = [] → st.pool_size_limit < 0 →
      (∀ op ∈ ops, isGR op = true) →
      (run st ops).1.pool = [] ∧
      (run st ops).1.pool_size_limit = st.pool_size_limit ∧
      (run st ops).1.count_overflow_discard =
        st.count_overflow_discard + numReleases ops ∧
      (run st ops).1.count_created = st.count_created + numGetsOk ops ∧
      (run st ops).2 = releasedResources ops := by
  induction ops with
  | nil =>
    intro st hp _ _
    exact ⟨hp, rfl, rfl, rfl, rfl⟩
  | cons op rest ih =>
    intro st hp hl hgr
    have hgr' : ∀ o ∈ rest, isGR o = true := fun o ho => hgr o (by simp [ho])
    cases op with
    | get g =>
      cases hco : g.fresh with
      | none =>
        rw [run_cons, step_get_empty_none st g hp hco]
        obtain ⟨i1, i2, i3, i4, i5⟩ := ih st hp hl hgr'
        refine ⟨i1, i2, ?_, ?_, ?_⟩
        · rw [i3]
          simp [numReleases]
        · rw [i4]
          simp [numGetsOk, hco]
        · rw [i5]
          simp [releasedResources]
      | some r0 =>
        rw [run_cons, step_get_empty_some st g r0 hp hco]
        obtain ⟨i1, i2, i3, i4, i5⟩ :=
          ih { st with count_created := st.count_created + 1 } hp hl hgr'
        refine ⟨i1, i2, ?_, ?_, ?_⟩
        · rw [i3]
          simp [numReleases]
        · rw [i4]
          simp [numGetsOk, hco]
          omega
        · rw [i5]
          simp [releasedResources]
    | release r t =>
      rw [run_cons, step_release_neg st r t hl]
      obtain ⟨i1, i2, i3, i4, i5⟩ := ih
        { st with count_overflow_discard := st.count_overflow_discard + 1 }
        hp hl hgr'
      refine ⟨i1, i2, ?_, ?_, ?_⟩
      · rw [i3]
        simp [numReleases]
        omega
      · rw [i4]
        simp [numGetsOk]
      · rw [i5]
        simp [releasedResources]
    | clear l => simp [isGR] at hgr
    | restart l => simp [isGR] at hgr
    | shutdown => simp [isGR] at hgr
    | preheatOp ins ts => simp [isGR] at hgr
    | status => simp [isGR] at hgr

/-- Claim C6 (confirmed for get/release activity, the operations the spec
sentence quantifies over): after `shut_down()` (which installs the
sentinel limit -1 and empties the idle list), every subsequent trace of
`get_resource` and `release_resource` calls keeps the idle sequence empty
at every intermediate state, every release increments
`count_overflow_discard` by exactly one and hands exactly the released
resources to `destroy_resource`, and every `get_resource` whose
`create_resource` outcome is a resource still creates and returns it
(`count_created` grows by the number of successful creations). -/
theorem c6_shutdown_permanent (st0 : PoolState) (ops : List Op)
    (hgr : ∀ op ∈ ops, isGR op = true) :
    (∀ pre, pre <+: ops → (run (shut_down st0).1 pre).1.pool = []) ∧
    (run (shut_down st0).1 ops).1.count_overflow_discard =
      (shut_down st0).1.count_overflow_discard + numReleases ops ∧
    (run (shut_down st0).1 ops).2 = releasedResources ops ∧
    (run (shut_down st0).1 ops).1.count_created =
      (shut_down st0).1.count_created + numGetsOk ops := by
  have hpool : (shut_down st0).1.pool = [] := rfl
  have hlim : (shut_down st0).1.pool_size_limit < 0 := by
    have : (shut_down st0).1.pool_size_limit = -1 := rfl
    omega
  refine ⟨?_, ?_, ?_, ?_⟩
  · intro pre hpre
    exact (runGR_negative_limit pre _ hpool hlim
      (fun op ho => hgr op (hpre.subset ho))).1
  · exact (runGR_negative_limit ops _ hpool hlim hgr).2.2.1
  · exact (runGR_negative_limit ops _ hpool hlim hgr).2.2.2.2
  · exact (runGR_negative_limit ops _ hpool hlim hgr).2.2.2.1

/-- Claim C6, witness: a shut-down pool given one release and one
acquisition — idle stays empty, the release is overflow-discarded and
destroyed, the acquisition creates. -/
theorem c6_witness :
    (run (shut_down stalePool).1 shutOps).1.pool = [] ∧
    (run (shut_down stalePool).1 shutOps).1.count_overflow_discard =
      (shut_down stalePool).1.count_overflow_discard + numReleases shutOps ∧
    (run (shut_down stalePool).1 shutOps).2 = releasedResources shutOps :=
  ⟨(c6_shutdown_permanent stalePool shutOps (by decide)).1 shutOps
      (List.prefix_refl _),
   (c6_shutdown_permanent stalePool shutOps (by decide)).2.1,
   (c6_shutdown_permanent stalePool shutOps (by decide)).2.2.1⟩

/-!  Preservation of the size invariant by every operation.  -/

theorem get_resource_sizeInv (st : PoolState) (t0 : Int) (co : Option Resource)
    (t1 : Int) (h : sizeInv st) : sizeInv (get_resource st t0 co t1).1 := by
  obtain ⟨hpool, -, -, -, -, hlimEq, -, -⟩ := get_resource_frame st t0 co t1
  intro hlim
  rw [hlimEq] at hlim
  rw [hpool, hlimEq]
  have hr : (gscan st t0).rest.length ≤ st.pool.length :=
    scan_rest_le st.pool
  have := h hlim
  omega

theorem release_resource_sizeInv (st : PoolState) (r : Resource) (t : Int)
    (h : sizeInv st) : sizeInv (release_resource st r t).1 := by
  by_cases hc : st.pool_size_limit = 0 ∨
      (st.pool.length : Int) < st.pool_size_limit
  · rw [release_stored st r t hc]
    intro hlim
    simp only [List.length_append, List.length_cons, List.length_nil] at *
    rcases hc with h0 | hlt
    · omega
    · push_cast
      omega
  · rw [release_discarded st r t hc]
    exact h

theorem clear_pool_sizeInv (st : PoolState) (l : Option Int) :
    sizeInv (clear_pool st l).1 := by
  intro hlim
  simp [clear_pool] at hlim ⊢
  omega

theorem getMany_sizeInv (ins : List GetIn) :
    ∀ st : PoolState, sizeInv st → sizeInv (getMany st ins).1 := by
  induction ins with
  | nil => intro st h; exact h
  | cons g gs ih =>
    intro st h
    have h1 : sizeInv (get_resource st g.t0 g.fresh g.t1).1 :=
      get_resource_sizeInv st g.t0 g.fresh g.t1 h
    cases hres : (get_resource st g.t0 g.fresh g.t1).2.2 with
    | error e => simpa [getMany, hres] using h1
    | ok r =>
      simp only [getMany, hres]
      exact ih _ h1

theorem releaseMany_sizeInv (rs : List Resource) :
    ∀ (ts : List Int) (st : PoolState),
      sizeInv st → sizeInv (releaseMany st rs ts).1 := by
  induction rs with
  | nil => intro ts st h; cases ts <;> exact h
  | cons r rs ih =>
    intro ts st h
    cases ts with
    | nil => exact h
    | cons t ts =>
      exact ih ts _ (release_resource_sizeInv st r t h)

theorem preheat_sizeInv (st : PoolState) (ins : List GetIn) (ts : List Int)
    (h : sizeInv st) : sizeInv (preheat st ins ts).1 := by
  cases hres : (getMany st ins).2.2 with
  | none => simpa [preheat, hres] using getMany_sizeInv ins st h
  | some rs =>
    simp only [preheat, hres]
    exact releaseMany_sizeInv rs ts _ (getMany_sizeInv ins st h)

theorem step_sizeInv (st : PoolState) (op : Op) (h : sizeInv st) :
    sizeInv (step st op).1 := by
  cases op with
  | get g => exact get_resource_sizeInv st g.t0 g.fresh g.t1 h
  | release r t => exact release_resource_sizeInv st r t h
  | clear l => exact clear_pool_sizeInv st l
  | restart l => exact clear_pool_sizeInv st (some l)
  | shutdown => exact clear_pool_sizeInv st (some (-1))
  | preheatOp ins ts => exact preheat_sizeInv st ins ts h
  | status => exact h

theorem run_sizeInv (ops : List Op) :
    ∀ st : PoolState, sizeInv st → sizeInv (run st ops).1 := by
  induction ops with
  | nil => intro st h; exact h
  | cons op rest ih =>
    intro st h
    exact ih (step st op).1 (step_sizeInv st op h)

/-- Claim C7 (confirmed): in every state reachable from a freshly
constructed pool by any sequence of the pool's operations (`get_resource`,
`release_resource`, `clear_pool`, `restart_pool`, `shut_down`, `preheat`,
`get_status`), if `pool_size_limit` is positive then the idle sequence has
at most `pool_size_limit` elements. -/
theorem c7_size_invariant (limit maxa maxi : Int) (ops : List Op)
    (h : 0 < (run (initPool limit maxa maxi) ops).1.pool_size_limit) :
    ((run (initPool limit maxa maxi) ops).1.pool.length : Int) ≤
      (run (initPool limit maxa maxi) ops).1.pool_size_limit :=
  run_sizeInv ops (initPool limit maxa maxi)
    (fun hlim => by simp [initPool] at hlim ⊢; omega) h

/-- Claim C7, witness: the invariant at the end of a concrete trace. -/
theorem c7_witness :
    ((run (initPool 10 0 0) recycleOps).1.pool.length : Int) ≤
      (run (initPool 10 0 0) recycleOps).1.pool_size_limit :=
  c7_size_invariant 10 0 0 recycleOps (by decide)

/-!  The two phases of ``preheat`` on an initially empty idle list.  -/

theorem getMany_empty (ins : List GetIn) :
    ∀ st : PoolState, st.pool = [] → (∀ g ∈ ins, g.fresh.isSome) →
      (getMany st ins).1.pool = [] ∧
      (getMany st ins).1.pool_size_limit = st.pool_size_limit ∧
      (getMany st ins).1.count_created = st.count_created + ins.length ∧
      (getMany st ins).1.count_served_from_pool = st.count_served_from_pool ∧
      (getMany st ins).1.count_overflow_discard = st.count_overflow_discard ∧
      (getMany st ins).2.1 = [] ∧
      ∃ rs, (getMany st ins).2.2 = some rs ∧ rs.length = ins.length := by
  induction ins with
  | nil =>
    intro st hp _
    exact ⟨hp, rfl, rfl, rfl, rfl, rfl, [], rfl, rfl⟩
  | cons g gs ih =>
    intro st hp hok
    obtain ⟨p, lim, ma, mi, cc, ccr, cks, ckt, cod, csp⟩ := st
    simp only at hp
    subst hp
    obtain ⟨r0, hco⟩ := Option.isSome_iff_exists.mp (hok g (by simp))
    have hget : get_resource ⟨[], lim, ma, mi, cc, ccr, cks, ckt, cod, csp⟩
        g.t0 g.fresh g.t1 =
        (⟨[], lim, ma, mi, cc, ccr + 1, cks, ckt, cod, csp⟩, [],
         Except.ok { r0 with created := g.t1 }) := by
      rw [hco]
      rfl
    have hres : (get_resource ⟨[], lim, ma, mi, cc, ccr, cks, ckt, cod, csp⟩
        g.t0 g.fresh g.t1).2.2 = Except.ok { r0 with created := g.t1 } := by
      rw [hget]
    obtain ⟨i1, i2, i3, i4, i5, i6, rs, i7, i8⟩ :=
      ih ⟨[], lim, ma, mi, cc, ccr + 1, cks, ckt, cod, csp⟩ rfl
        (fun x hx => hok x (by simp [hx]))
    simp only [getMany, hres, hget, i7]
    refine ⟨i1, i2, ?_, i4, i5, by simp [i6], ?_⟩
    · rw [i3]
      simp
      omega
    · exact ⟨{ r0 with created := g.t1 } :: rs, by simp, by simp [i8]⟩

theorem releaseMany_fill (rs : List Resource) :
    ∀ (ts : List Int) (st : PoolState), 0 < st.pool_size_limit →
      (st.pool.length : Int) ≤ st.pool_size_limit → ts.length = rs.length →
      ((releaseMany st rs ts).1.pool.length : Int) =
        min ((st.pool.length : Int) + rs.length) st.pool_size_limit ∧
      (releaseMany st rs ts).1.pool_size_limit = st.pool_size_limit ∧
      (releaseMany st rs ts).1.count_created = st.count_created ∧
      (releaseMany st rs ts).1.count_served_from_pool =
        st.count_served_from_pool := by
  induction rs with
  | nil =>
    intro ts st h1 h2 h3
    cases ts with
    | nil =>
      refine ⟨?_, rfl, rfl, rfl⟩
      simp [releaseMany]
      omega
    | cons t ts => simp at h3
  | cons r rs ih =>
    intro ts st h1 h2 h3
    cases ts with
    | nil => simp at h3
    | cons t ts =>
      have hstep : (releaseMany st (r :: rs) (t :: ts)).1 =
          (releaseMany (release_resource st r t).1 rs ts).1 := rfl
      by_cases hroom : (st.pool.length : Int) < st.pool_size_limit
      · have hst := release_stored st r t (Or.inr hroom)
        have hlim' : 0 < (release_resource st r t).1.pool_size_limit := by
          rw [hst]; exact h1
        have hlen' : ((release_resource st r t).1.pool.length : Int) ≤
            (release_resource st r t).1.pool_size_limit := by
          rw [hst]
          simp
          omega
        obtain ⟨f1, f2, f3, f4⟩ := ih ts (release_resource st r t).1 hlim'
          hlen' (by simpa using h3)
        rw [hstep]
        refine ⟨?_, ?_, ?_, ?_⟩
        · rw [f1, hst]
          simp
          omega
        · rw [f2, hst]
        · rw [f3, hst]
        · rw [f4, hst]
      · have hd := release_discarded st r t
          (by push_neg; exact ⟨by omega, by omega⟩)
        have hlim' : 0 < (release_resource st r t).1.pool_size_limit := by
          rw [hd]; exact h1
        have hlen' : ((release_resource st r t).1.pool.length : Int) ≤
            (release_resource st r t).1.pool_size_limit := by
          rw [hd]; exact h2
        obtain ⟨f1, f2, f3, f4⟩ := ih ts (release_resource st r t).1 hlim'
          hlen' (by simpa using h3)
        rw [hstep]
        refine ⟨?_, ?_, ?_, ?_⟩
        · rw [f1, hd]
          simp
          omega
        · rw [f2, hd]
        · rw [f3, hd]
        · rw [f4, hd]

/-- Claim C5, counterexample.  `preheat(1)` on a pool that already holds a
valid idle resource serves that resource instead of creating: the claim's
"always creates count new resources" fails — `count_created` does not
move. -/
theorem c5_counterexample :
    idleOnePool.pool.length = 1 ∧
    (preheat idleOnePool [⟨0, some ⟨2, 0, 0⟩, 0⟩] [0]).2.2 = true ∧
    (preheat idleOnePool [⟨0, some ⟨2, 0, 0⟩, 0⟩] [0]).1.count_created =
      idleOnePool.count_created :=
  ⟨rfl, rfl, rfl⟩

/-- Claim C5 (corrected): `preheat(count)` performs its `count`
`get_resource` calls first (the list comprehension runs to completion) and
only then the `count` `release_resource` calls, in that order — that is
the very shape of the embedded definition.  When the idle sequence is
empty at the call and `pool_size_limit` is positive, and every creation
succeeds, it creates exactly `count` resources (`count_created` grows by
`count`, `count_served_from_pool` not at all — no recycling) and leaves
`min(count, pool_size_limit)` resources resident.  On a pool that already
holds valid idle resources the acquisition phase recycles them instead,
so the unconditional claim fails. -/
theorem c5_preheat_counts (st : PoolState) (ins : List GetIn) (ts : List Int)
    (hpool : st.pool = []) (hlim : 0 < st.pool_size_limit)
    (hok : ∀ g ∈ ins, g.fresh.isSome) (hts : ts.length = ins.length) :
    (preheat st ins ts).2.2 = true ∧
    (preheat st ins ts).1.count_created = st.count_created + ins.length ∧
    (preheat st ins ts).1.count_served_from_pool =
      st.count_served_from_pool ∧
    ((preheat st ins ts).1.pool.length : Int) =
      min (ins.length : Int) st.pool_size_limit := by
  obtain ⟨i1, i2, i3, i4, i5, i6, rs, i7, i8⟩ := getMany_empty ins st hpool hok
  obtain ⟨f1, f2, f3, f4⟩ := releaseMany_fill rs ts (getMany st ins).1
    (by rw [i2]; exact hlim)
    (by rw [i1, i2]; simp; omega)
    (by rw [i8]; exact hts)
  simp only [preheat, i7]
  refine ⟨trivial, ?_, ?_, ?_⟩
  · rw [f3, i3]
  · rw [f4, i4]
  · rw [f1, i1, i2, i8]
    simp

/-- Claim C5, witness: `preheat(3)` on a fresh pool with limit 2 creates
3 resources and leaves 2 resident. -/
theorem c5_witness :
    (preheat (initPool 2 0 0) preheatIns [0, 0, 0]).2.2 = true ∧
    (preheat (initPool 2 0 0) preheatIns [0, 0, 0]).1.count_created =
      (initPool 2 0 0).count_created + preheatIns.length ∧
    (preheat (initPool 2 0 0) preheatIns [0, 0, 0]).1.count_served_from_pool =
      (initPool 2 0 0).count_served_from_pool ∧
    ((preheat (initPool 2 0 0) preheatIns [0, 0, 0]).1.pool.length : Int) =
      min (preheatIns.length : Int) (initPool 2 0 0).pool_size_limit :=
  c5_preheat_counts (initPool 2 0 0) preheatIns [0, 0, 0] rfl (by decide)
    (by decide) rfl

/-!  Lock-discipline bookkeeping over event traces.  -/

theorem heldList_append (held : Bool) (xs ys : List Ev) :
    heldList held (xs ++ ys) = heldList (heldList held xs) ys := by
  simp [heldList, List.foldl_append]

theorem eventsOk_append (p : Bool → Ev → Bool) (xs ys : List Ev) :
    ∀ held, eventsOk p held (xs ++ ys) =
      (eventsOk p held xs && eventsOk p (heldList held xs) ys) := by
  induction xs with
  | nil => intro held; simp [eventsOk, heldList]
  | cons e xs ih =>
    intro held
    show (p held e && eventsOk p (heldAfter held e) (xs ++ ys)) = _
    rw [ih (heldAfter held e)]
    show _ = ((p held e && eventsOk p (heldAfter held e) xs) &&
      eventsOk p (heldList (heldAfter held e) xs) ys)
    rw [Bool.and_assoc]

theorem eventsOk_replicate (p : Bool → Ev → Bool) (e : Ev)
    (he : p false e = true) (hh : heldAfter false e = false) (n : Nat) :
    eventsOk p false (List.replicate n e) = true ∧
      heldList false (List.replicate n e) = false := by
  induction n with
  | zero => exact ⟨rfl, rfl⟩
  | succ n ih =>
    constructor
    · show (p false e && eventsOk p (heldAfter false e)
        (List.replicate n e)) = true
      rw [he, hh, ih.1]
      rfl
    · show heldList (heldAfter false e) (List.replicate n e) = false
      rw [hh]
      exact ih.2

theorem eventsOk_flatten_replicate (p : Bool → Ev → Bool) (l : List Ev)
    (h1 : eventsOk p false l = true) (h2 : heldList false l = false)
    (n : Nat) :
    eventsOk p false ((List.replicate n l).flatten) = true ∧
      heldList false ((List.replicate n l).flatten) = false := by
  induction n with
  | zero => exact ⟨rfl, rfl⟩
  | succ n ih =>
    rw [List.replicate_succ, List.flatten_cons]
    constructor
    · rw [eventsOk_append, h1, h2, ih.1]
      rfl
    · rw [heldList_append, h2, ih.2]

theorem append_replicate_ok (p : Bool → Ev → Bool) (P : List Ev) (e : Ev)
    (hP : eventsOk p false P = true) (hPH : heldList false P = false)
    (he : p false e = true) (hh : heldAfter false e = false) (n : Nat) :
    eventsOk p false (P ++ List.replicate n e) = true := by
  obtain ⟨h1, -⟩ := eventsOk_replicate p e he hh n
  rw [eventsOk_append, hP, hPH, h1]
  rfl

theorem getEvents_ok (p : Bool → Ev → Bool)
    (hIter : eventsOk p false getIterEvents = true)
    (hPull : eventsOk p false (pullEvents false) = true)
    (hTail : eventsOk p false [Ev.callCreate, Ev.writeS SVar.counter] = true)
    (hDestroy : p false Ev.callDestroy = true)
    (nKills : Nat) (served : Bool) :
    eventsOk p false (getEvents nKills served) = true := by
  have hIterH : heldList false getIterEvents = false := by decide
  have hPullH : heldList false (pullEvents false) = false := by decide
  obtain ⟨hA, hAH⟩ :=
    eventsOk_flatten_replicate p getIterEvents hIter hIterH nKills
  obtain ⟨hC, hCH⟩ :=
    eventsOk_replicate p Ev.callDestroy hDestroy (by decide) nKills
  cases served with
  | true =>
    show eventsOk p false ((List.replicate nKills getIterEvents).flatten ++
      getIterEvents ++ List.replicate nKills Ev.callDestroy ++ []) = true
    simp only [List.append_nil, eventsOk_append, heldList_append,
      hAH, hIterH, hA, hIter, hC]
    rfl
  | false =>
    show eventsOk p false ((List.replicate nKills getIterEvents).flatten ++
      pullEvents false ++ List.replicate nKills Ev.callDestroy ++
      [Ev.callCreate, Ev.writeS SVar.counter]) = true
    simp only [eventsOk_append, heldList_append,
      hAH, hIterH, hPullH, hCH, hA, hPull, hC, hTail]
    rfl

/-- Claim C9, counterexample.  The claim's discipline — every read or
mutation of the shared pool state happens while the lock is held — is
violated by the source: an overflow-discarding `release_resource`
increments `count_overflow_discard` after it released the lock (pool.py
lines 178-180), and `get_status` reads the pool length and all counters
with no lock at all. -/
theorem c9_counterexample :
    claimDiscipline (releaseEvents false) = false ∧
    claimDiscipline statusEvents = false := by
  decide

/-- Claim C9 (corrected): in every operation's event trace, each write of
the idle sequence or of `pool_size_limit` occurs while the pool lock is
held, and the lock is released before any `create_resource` or
`destroy_resource` call; counter updates (and `get_status` reads),
however, occur outside the lock. -/
theorem c9_lock_discipline :
    (∀ nKills served, structWritesLocked (getEvents nKills served) = true ∧
        callsUnlocked (getEvents nKills served) = true) ∧
    (∀ stored, structWritesLocked (releaseEvents stored) = true ∧
        callsUnlocked (releaseEvents stored) = true) ∧
    (∀ n newLimit, structWritesLocked (clearEvents n newLimit) = true ∧
        callsUnlocked (clearEvents n newLimit) = true) ∧
    structWritesLocked statusEvents = true ∧
    callsUnlocked statusEvents = true := by
  refine ⟨?_, ?_, ?_, by decide, by decide⟩
  · intro nKills served
    exact ⟨getEvents_ok structOkAt (by decide) (by decide) (by decide)
        (by decide) nKills served,
      getEvents_ok callOkAt (by decide) (by decide) (by decide)
        (by decide) nKills served⟩
  · intro stored
    cases stored <;> exact ⟨by decide, by decide⟩
  · intro n newLimit
    cases newLimit with
    | true =>
      constructor
      · exact append_replicate_ok structOkAt
          ([Ev.acq, Ev.readS SVar.idleSeq, Ev.writeS SVar.idleSeq] ++
            [Ev.writeS SVar.sizeLimit] ++ [Ev.rel, Ev.writeS SVar.counter])
          Ev.callDestroy (by decide) (by decide) (by decide) (by decide) n
      · exact append_replicate_ok callOkAt
          ([Ev.acq, Ev.readS SVar.idleSeq, Ev.writeS SVar.idleSeq] ++
            [Ev.writeS SVar.sizeLimit] ++ [Ev.rel, Ev.writeS SVar.counter])
          Ev.callDestroy (by decide) (by decide) (by decide) (by decide) n
    | false =>
      constructor
      · exact append_replicate_ok structOkAt
          ([Ev.acq, Ev.readS SVar.idleSeq, Ev.writeS SVar.idleSeq] ++
            [] ++ [Ev.rel, Ev.writeS SVar.counter])
          Ev.callDestroy (by decide) (by decide) (by decide) (by decide) n
      · exact append_replicate_ok callOkAt
          ([Ev.acq, Ev.readS SVar.idleSeq, Ev.writeS SVar.idleSeq] ++
            [] ++ [Ev.rel, Ev.writeS SVar.counter])
          Ev.callDestroy (by decide) (by decide) (by decide) (by decide) n
